import Mathlib

/-!
Verification development for the album2buy reconciliation tool.

The Go program is shallowly embedded: strings are `List Char`, the HTTP
lookup performed by `SubsonicClient.HasAlbum` is abstracted as a function
`Album → LookupResult`, and `context` cancellation is a boolean signal.
Every definition is translated from the program source (`main.go`).
-/

namespace AlbumCheck

/-- Characters treated as white space by Go's `strings.TrimSpace`
(`unicode.IsSpace`): ASCII control spaces, space, NEL, NBSP, Ogham space,
the general-punctuation spaces, line/paragraph separators, narrow NBSP,
medium mathematical space and ideographic space. -/
def isGoSpace (c : Char) : Bool :=
  decide ((9 ≤ c.toNat ∧ c.toNat ≤ 13) ∨ c.toNat = 32 ∨ c.toNat = 133 ∨
    c.toNat = 160 ∨ c.toNat = 0x1680 ∨ (0x2000 ≤ c.toNat ∧ c.toNat ≤ 0x200A) ∨
    c.toNat = 0x2028 ∨ c.toNat = 0x2029 ∨ c.toNat = 0x202F ∨ c.toNat = 0x205F ∨
    c.toNat = 0x3000)

/-- Characters matched by Go's regexp class `\s`, which is ASCII-only:
tab, newline, form feed, carriage return, space. -/
def isRegexSpace (c : Char) : Bool :=
  decide (c.toNat = 9 ∨ c.toNat = 10 ∨ c.toNat = 12 ∨ c.toNat = 13 ∨
    c.toNat = 32)

/-- Go regexp `\d`: the ASCII digits. -/
def isAsciiDigit (c : Char) : Bool :=
  decide (48 ≤ c.toNat ∧ c.toNat ≤ 57)

/-- Go regexp `\p{L}` (Unicode letter), modelled over the principal letter
blocks of the Basic Multilingual Plane: ASCII letters, the Latin-1 and
extended Latin letters, Greek, Cyrillic, Armenian, Hebrew, Arabic letters,
Hiragana, Katakana, CJK unified ideographs and Hangul syllables.  None of
these ranges contains a white-space character, a digit, or a parenthesis,
which is all the proofs below depend on. -/
def isUnicodeLetter (c : Char) : Bool :=
  decide ((65 ≤ c.toNat ∧ c.toNat ≤ 90) ∨ (97 ≤ c.toNat ∧ c.toNat ≤ 122) ∨
    c.toNat = 0xAA ∨ c.toNat = 0xB5 ∨ c.toNat = 0xBA ∨
    (0xC0 ≤ c.toNat ∧ c.toNat ≤ 0xFF ∧ c.toNat ≠ 0xD7 ∧ c.toNat ≠ 0xF7) ∨
    (0x100 ≤ c.toNat ∧ c.toNat ≤ 0x24F) ∨
    (0x370 ≤ c.toNat ∧ c.toNat ≤ 0x3FF ∧ c.toNat ≠ 0x37E) ∨
    (0x400 ≤ c.toNat ∧ c.toNat ≤ 0x4FF) ∨
    (0x531 ≤ c.toNat ∧ c.toNat ≤ 0x556) ∨ (0x561 ≤ c.toNat ∧ c.toNat ≤ 0x587) ∨
    (0x5D0 ≤ c.toNat ∧ c.toNat ≤ 0x5EA) ∨ (0x620 ≤ c.toNat ∧ c.toNat ≤ 0x64A) ∨
    (0x3041 ≤ c.toNat ∧ c.toNat ≤ 0x3096) ∨ (0x30A1 ≤ c.toNat ∧ c.toNat ≤ 0x30FA) ∨
    (0x4E00 ≤ c.toNat ∧ c.toNat ≤ 0x9FFF) ∨ (0xAC00 ≤ c.toNat ∧ c.toNat ≤ 0xD7A3))

/-- The characters kept by `cleanString`'s deletion step: the regexp
`[^\d\p{L} ]` deletes everything that is not a digit, a Unicode letter or
a space. -/
def keepChar (c : Char) : Bool :=
  isAsciiDigit c || isUnicodeLetter c || c == ' '

/-- Go's `strings.TrimSpace`: drop white space from both ends. -/
def trimSpace (l : List Char) : List Char :=
  List.rdropWhile isGoSpace (List.dropWhile isGoSpace l)

/-- Helper for the regexp `\([^)]*\)$`: scanning the string without its
final `)`, find the leftmost `(` that has no `)` after it, and return the
part of the string before that `(` — exactly the leftmost (and only
possible) match of the anchored regexp. -/
def cutAtOpen : List Char → Option (List Char)
  | [] => none
  | c :: rest =>
    if c = '(' ∧ rest.contains ')' = false then some []
    else (cutAtOpen rest).map (fun t => c :: t)

/-- Model of `regexp.MustCompile` of `\([^)]*\)$` followed by `ReplaceAllString`
with the empty string: if the string ends in `)` and there is a matching
parenthesized group at the very end, remove it (at most one match is
possible because of the `$` anchor). -/
def stripTrailingGroup (l : List Char) : List Char :=
  if l.getLast? = some ')' then
    match cutAtOpen l.dropLast with
    | some pre => pre
    | none => l
  else l

/-- Helper for collapsing white-space runs: `inRun` records whether the
previous character belonged to the current run (in which case further run
characters are dropped rather than emitting another space). -/
def collapseAux (p : Char → Bool) (inRun : Bool) : List Char → List Char
  | [] => []
  | c :: rest =>
    if p c then
      if inRun then collapseAux p true rest
      else ' ' :: collapseAux p true rest
    else c :: collapseAux p false rest

/-- Model of `ReplaceAllString` of a white-space-class regexp `X+` with a single
space: every maximal run of characters satisfying `p` becomes one space. -/
def collapseWith (p : Char → Bool) (l : List Char) : List Char :=
  collapseAux p false l

/-- Function `cleanString` from the source, on character lists: trim, strip one
trailing parenthesized group (`\([^)]*\)$`), delete every character
outside `[\d\p{L} ]`, collapse `\s+` runs to one space, trim again. -/
def cleanChars (l : List Char) : List Char :=
  trimSpace (collapseWith isRegexSpace ((stripTrailingGroup (trimSpace l)).filter keepChar))

/-- Function `cleanString` on Lean strings. -/
def cleanString (s : String) : String :=
  String.mk (cleanChars s.data)


/-- Record `Album` from the Last.fm response: name, artist name (the nested
`artist.name` field) and Last.fm URL. -/
structure Album where
  name : List Char
  artistName : List Char
  url : List Char
deriving DecidableEq

/-- Outcome of one `SubsonicClient.HasAlbum` lookup: either an error
(carrying the error's descriptive text) or a boolean existence answer.
The network call is abstracted as a function `Album → LookupResult`. -/
inductive LookupResult where
  | err (msg : List Char)
  | ok (found : Bool)
deriving DecidableEq

/-- Record `ErrorStats` from the source: counters of API errors during a scan. -/
structure ErrorStats where
  total : Nat
  successful : Nat
  failed : Nat
  rateLimit : Nat
  serverError : Nat
  network : Nat
  other : Nat
deriving DecidableEq

/-- The zero-initialised `&ErrorStats{}` the scan starts with. -/
def ErrorStats.zero : ErrorStats := ⟨0, 0, 0, 0, 0, 0, 0⟩

/-- The `maxRecommendations` constant from the source. -/
def maxRecommendations : Nat := 5

/-- Model of `strings.ToLower`, character-wise; modelled on the ASCII range (all
category markers the classifier compares against are ASCII). -/
def toLowerChar (c : Char) : Char :=
  if 65 ≤ c.toNat ∧ c.toNat ≤ 90 then Char.ofNat (c.toNat + 32) else c

/-- Model of `strings.ToLower` on a whole string. -/
def goToLower (l : List Char) : List Char := l.map toLowerChar

/-- Does the second list start with the first one? -/
def beginsWith : List Char → List Char → Bool
  | [], _ => true
  | _ :: _, [] => false
  | a :: as, b :: bs => a == b && beginsWith as bs

/-- Does `needle` occur contiguously inside `haystack`? -/
def hasSub (needle : List Char) : List Char → Bool
  | [] => needle.isEmpty
  | c :: rest => beginsWith needle (c :: rest) || hasSub needle rest

/-- Model of `strings.Contains`: substring test. -/
def containsStr (l : List Char) (sub : String) : Bool := hasSub sub.data l

/-- The rate-limit markers checked first by `categorizeError`. -/
def hasRateLimitMarker (l : List Char) : Bool :=
  containsStr l "429" || containsStr l "rate limit" || containsStr l "too many requests"

/-- The server-error markers checked second by `categorizeError`. -/
def hasServerErrorMarker (l : List Char) : Bool :=
  containsStr l "500" || containsStr l "502" || containsStr l "503" || containsStr l "504" ||
  containsStr l "internal server error" || containsStr l "bad gateway" ||
  containsStr l "service unavailable" || containsStr l "gateway timeout"

/-- The network markers checked third by `categorizeError`. -/
def hasNetworkMarker (l : List Char) : Bool :=
  containsStr l "connection" || containsStr l "timeout" || containsStr l "network" ||
  containsStr l "dial" || containsStr l "no such host"

/-- Function `categorizeError` from the source: lower-case the error text, then
bump the first matching category counter (rate limit, then server error,
then network, then other). -/
def categorizeError (msg : List Char) (stats : ErrorStats) : ErrorStats :=
  let errStr := goToLower msg
  if hasRateLimitMarker errStr then { stats with rateLimit := stats.rateLimit + 1 }
  else if hasServerErrorMarker errStr then { stats with serverError := stats.serverError + 1 }
  else if hasNetworkMarker errStr then { stats with network := stats.network + 1 }
  else { stats with other := stats.other + 1 }

/-- Function `isURLIgnored` from the source: `slices.Contains`. -/
def isURLIgnored (url : List Char) (ignoredURLs : List (List Char)) : Bool :=
  ignoredURLs.contains url

/-- The loop body of `findMissingAlbums`, carrying the `missing` and
`errorStats` accumulators: skip ignored URLs; on lookup error bump
`Failed` and categorize, then continue; on success bump `Successful` and
collect absent albums, stopping once `maxRecommendations` are found. -/
def findLoop (check : Album → LookupResult) (ignoredURLs : List (List Char)) :
    List Album → List Album → ErrorStats → List Album × ErrorStats
  | [], missing, stats => (missing, stats)
  | album :: rest, missing, stats =>
    if isURLIgnored album.url ignoredURLs then
      findLoop check ignoredURLs rest missing stats
    else
      let stats1 : ErrorStats := { stats with total := stats.total + 1 }
      match check album with
      | .err msg =>
        findLoop check ignoredURLs rest missing
          (categorizeError msg { stats1 with failed := stats1.failed + 1 })
      | .ok found =>
        let stats2 : ErrorStats := { stats1 with successful := stats1.successful + 1 }
        if found then
          findLoop check ignoredURLs rest missing stats2
        else
          let missing1 := missing ++ [album]
          if maxRecommendations ≤ missing1.length then (missing1, stats2)
          else findLoop check ignoredURLs rest missing1 stats2

/-- Function `findMissingAlbums` from the source, also exposing the final
`ErrorStats` (which the source reports to the terminal). -/
def findMissingAlbums (check : Album → LookupResult) (ignoredURLs : List (List Char))
    (albums : List Album) : List Album × ErrorStats :=
  findLoop check ignoredURLs albums [] ErrorStats.zero

/-- Model of `main`'s control flow after configuration loading: a failed initial
`GetTopAlbums` fetch aborts the run (`os.Exit(1)`), modelled as `.error`;
otherwise the scan runs and the run completes normally. -/
def runMain (check : Album → LookupResult) (ignoredURLs : List (List Char))
    (fetched : Except (List Char) (List Album)) :
    Except (List Char) (List Album × ErrorStats) :=
  match fetched with
  | .error e => .error e
  | .ok albums => .ok (findMissingAlbums check ignoredURLs albums)

/-- What one `h.client.Do(req)` attempt produced: a transport-level error
or a response with a status code. The endpoint is abstracted as a
function from the attempt index to an outcome. -/
inductive AttemptOutcome where
  | transportErr (msg : List Char)
  | response (status : Nat)
deriving DecidableEq

/-- Result of `DoWithRetry`: a 200 response; a cancellation error
(`ctx.Err()` observed while waiting between attempts); or, after the
budget is exhausted, an error naming the attempt count and either the
last transport error (`resp == nil` case) or the last status code. -/
inductive RetryResult where
  | success (status : Nat)
  | cancelled
  | errNoResponse (lastErr : List Char) (attempts : Nat)
  | errStatus (status : Nat) (attempts : Nat)
deriving DecidableEq

/-- Go's success test `err == nil && resp.StatusCode == http.StatusOK`. -/
def isSuccessOutcome : AttemptOutcome → Bool
  | .response st => st == 200
  | .transportErr _ => false

/-- The code after `DoWithRetry`'s loop: `resp == nil` (last attempt was
a transport error, or the loop never ran) yields the
"failed to get response" error, otherwise the "request failed with
status" error; both name `maxRetries`. -/
def retryFinish (maxRetries : Nat) : Option AttemptOutcome → RetryResult
  | none => .errNoResponse [] maxRetries
  | some (.transportErr m) => .errNoResponse m maxRetries
  | some (.response st) => .errStatus st maxRetries

/-- The `for i := range h.maxRetries` loop of `DoWithRetry`. `i` is the
attempt index, `fuel` the remaining iterations, and the third argument
the previous attempt's outcome (Go's `resp`/`err` variables). Between
attempts (`i < maxRetries-1`) the context's cancellation signal is
consulted during the retry delay. -/
def retrySteps (attempt : Nat → AttemptOutcome) (ctxDone : Nat → Bool) (maxRetries : Nat) :
    Nat → Nat → Option AttemptOutcome → RetryResult
  | _, 0, last => retryFinish maxRetries last
  | i, fuel + 1, _ =>
    let o := attempt i
    if isSuccessOutcome o then .success 200
    else if fuel = 0 then retryFinish maxRetries (some o)
    else if ctxDone i then .cancelled
    else retrySteps attempt ctxDone maxRetries (i + 1) fuel (some o)

/-- Function `DoWithRetry` from the source with a configurable attempt budget. -/
def DoWithRetry (maxRetries : Nat) (attempt : Nat → AttemptOutcome)
    (ctxDone : Nat → Bool) : RetryResult :=
  retrySteps attempt ctxDone maxRetries 0 maxRetries none

/-- A wall-clock instant at the resolution observable through the layout
`"20060102150405"` that `SearchAlbum` formats: seconds. -/
structure GoTime where
  year : Nat
  month : Nat
  day : Nat
  hour : Nat
  minute : Nat
  second : Nat
deriving DecidableEq

/-- Two-digit zero-padded decimal field of Go's time layout. -/
def pad2 (n : Nat) : List Char := [Nat.digitChar (n / 10 % 10), Nat.digitChar (n % 10)]

/-- Four-digit zero-padded decimal field of Go's time layout. -/
def pad4 (n : Nat) : List Char :=
  [Nat.digitChar (n / 1000 % 10), Nat.digitChar (n / 100 % 10),
   Nat.digitChar (n / 10 % 10), Nat.digitChar (n % 10)]

/-- Model of `time.Now().Format("20060102150405")` from `SearchAlbum`: the salt is
the current time rendered at second resolution. -/
def formatTimestamp (t : GoTime) : List Char :=
  pad4 t.year ++ pad2 t.month ++ pad2 t.day ++ pad2 t.hour ++ pad2 t.minute ++ pad2 t.second

/-- Model of `SearchAlbum`'s authentication material: `(token, salt)` where
`salt` is the formatted call time and the token is
`hex(md5(password ++ salt))`. `crypto/md5` is a standard-library
primitive outside this repository, so the hex-encoded hash is abstracted
as the function argument `md5hex`. -/
def searchAuth (md5hex : List Char → List Char) (password : List Char) (now : GoTime) :
    List Char × List Char :=
  let salt := formatTimestamp now
  (md5hex (password ++ salt), salt)

/-- The salts generated by a sequence of `SearchAlbum` calls, one call
per observed wall-clock time (`time.Now()` at second resolution). -/
def searchCallSalts (md5hex : List Char → List Char) (password : List Char)
    (times : List GoTime) : List (List Char) :=
  times.map (fun t => (searchAuth md5hex password t).2)

theorem retryFinish_ne_success (N : Nat) (last : Option AttemptOutcome) (s : Nat) :
    retryFinish N last ≠ .success s := by
  cases last with
  | none => simp [retryFinish]
  | some o => cases o <;> simp [retryFinish]

theorem retrySteps_congr (a1 a2 : Nat → AttemptOutcome) (c1 c2 : Nat → Bool) (N : Nat)
    (fuel : Nat) :
    ∀ (i : Nat) (last : Option AttemptOutcome),
      (∀ j, j < i + fuel → a1 j = a2 j) → (∀ j, j < i + fuel → c1 j = c2 j) →
      retrySteps a1 c1 N i fuel last = retrySteps a2 c2 N i fuel last := by
  induction fuel with
  | zero => intro i last _ _; rfl
  | succ fuel ih =>
    intro i last ha hc
    have hai : a1 i = a2 i := ha i (by omega)
    have hci : c1 i = c2 i := hc i (by omega)
    simp only [retrySteps, hai, hci]
    split
    · rfl
    · split
      · rfl
      · split
        · rfl
        · exact ih (i + 1) (some (a2 i))
            (fun j hj => ha j (by omega)) (fun j hj => hc j (by omega))

theorem retrySteps_success (a : Nat → AttemptOutcome) (c : Nat → Bool) (N : Nat)
    (fuel : Nat) :
    ∀ (i : Nat) (last : Option AttemptOutcome) (s : Nat),
      retrySteps a c N i fuel last = .success s →
      s = 200 ∧ ∃ j, i ≤ j ∧ j < i + fuel ∧ a j = .response 200 := by
  induction fuel with
  | zero => intro i last s h; exact absurd h (retryFinish_ne_success N last s)
  | succ fuel ih =>
    intro i last s h
    simp only [retrySteps] at h
    by_cases hs : isSuccessOutcome (a i) = true
    · rw [if_pos hs] at h
      have hs200 : s = 200 := by
        have := (RetryResult.success.injEq _ _).mp h
        omega
      refine ⟨hs200, i, le_refl i, by omega, ?_⟩
      cases hA : a i with
      | transportErr m => rw [hA] at hs; simp [isSuccessOutcome] at hs
      | response st =>
        rw [hA] at hs
        simp only [isSuccessOutcome, beq_iff_eq] at hs
        rw [hs]
    · rw [if_neg hs] at h
      by_cases hf : fuel = 0
      · rw [if_pos hf] at h
        exact absurd h (retryFinish_ne_success N _ s)
      · rw [if_neg hf] at h
        by_cases hc : c i = true
        · rw [if_pos hc] at h
          exact absurd h (by simp)
        · rw [if_neg hc] at h
          obtain ⟨h200, j, hij, hjlt, hj⟩ := ih (i + 1) (some (a i)) s h
          exact ⟨h200, j, by omega, by omega, hj⟩

theorem retrySteps_exhaust (a : Nat → AttemptOutcome) (c : Nat → Bool) (N : Nat)
    (fuel : Nat) :
    ∀ (i : Nat) (last : Option AttemptOutcome), 0 < fuel →
      (∀ j, i ≤ j → j < i + fuel → isSuccessOutcome (a j) = false) →
      (∀ j, c j = false) →
      retrySteps a c N i fuel last = retryFinish N (some (a (i + fuel - 1))) := by
  induction fuel with
  | zero => intro i last h; omega
  | succ fuel ih =>
    intro i last _ hfail hc
    have hi : isSuccessOutcome (a i) = false := hfail i (le_refl i) (by omega)
    simp only [retrySteps, hi, Bool.false_eq_true, if_false]
    by_cases hf : fuel = 0
    · subst hf
      simp
    · rw [if_neg hf, hc i, if_neg (by simp)]
      rw [ih (i + 1) (some (a i)) (by omega) (fun j h1 h2 => hfail j (by omega) (by omega)) hc]
      have harith : i + 1 + fuel - 1 = i + (fuel + 1) - 1 := by omega
      rw [harith]

/-- C9: `DoWithRetry` with an `N`-attempt budget consults the endpoint on
at most the first `N` attempts, succeeds only when some attempt within
the budget returns exact status 200, and, when every attempt within the
budget is non-successful and the cancellation signal never fires,
exhausts the budget and returns the error built from the last attempt's
outcome and the attempt count (`retryFinish`); with a 2-attempt budget
against an endpoint that always answers status 500 it fails after
exactly 2 attempts with the error naming status 500 and 2 attempts. -/
theorem doWithRetry_contract (N : Nat) :
    (∀ (a1 a2 : Nat → AttemptOutcome) (c1 c2 : Nat → Bool),
        (∀ j, j < N → a1 j = a2 j) → (∀ j, j < N → c1 j = c2 j) →
        DoWithRetry N a1 c1 = DoWithRetry N a2 c2) ∧
    (∀ (a : Nat → AttemptOutcome) (c : Nat → Bool) (s : Nat),
        DoWithRetry N a c = .success s →
        s = 200 ∧ ∃ j, j < N ∧ a j = .response 200) ∧
    (∀ (a : Nat → AttemptOutcome) (c : Nat → Bool),
        0 < N → (∀ j, j < N → isSuccessOutcome (a j) = false) → (∀ j, c j = false) →
        DoWithRetry N a c = retryFinish N (some (a (N - 1)))) ∧
    DoWithRetry 2 (fun _ => .response 500) (fun _ => false) = .errStatus 500 2 := by
  refine ⟨?_, ?_, ?_, by decide⟩
  · intro a1 a2 c1 c2 ha hc
    exact retrySteps_congr a1 a2 c1 c2 N N 0 none
      (fun j hj => ha j (by omega)) (fun j hj => hc j (by omega))
  · intro a c s h
    obtain ⟨h200, j, _, hjlt, hj⟩ := retrySteps_success a c N N 0 none s h
    exact ⟨h200, j, by omega, hj⟩
  · intro a c hN hfail hc
    have := retrySteps_exhaust a c N N 0 none hN
      (fun j _ hj => hfail j (by omega)) hc
    simpa using this

/-- Witness for C9: the exhaustion part applied to the 2-attempt budget
and the always-500 endpoint. -/
theorem doWithRetry_contract_witness :
    DoWithRetry 2 (fun _ => .response 500) (fun _ => false) = .errStatus 500 2 := by
  have h := (doWithRetry_contract 2).2.2.1 (fun _ => .response 500) (fun _ => false)
    (by decide) (fun j _ => rfl) (fun j => rfl)
  simpa [retryFinish] using h

theorem categorizeError_cases (msg : List Char) (stats : ErrorStats) :
    categorizeError msg stats = { stats with rateLimit := stats.rateLimit + 1 } ∨
    categorizeError msg stats = { stats with serverError := stats.serverError + 1 } ∨
    categorizeError msg stats = { stats with network := stats.network + 1 } ∨
    categorizeError msg stats = { stats with other := stats.other + 1 } := by
  unfold categorizeError
  by_cases h1 : hasRateLimitMarker (goToLower msg) = true
  · simp [h1]
  · by_cases h2 : hasServerErrorMarker (goToLower msg) = true
    · simp [h1, h2]
    · by_cases h3 : hasNetworkMarker (goToLower msg) = true
      · simp [h1, h2, h3]
      · simp [h1, h2, h3]

/-- C5 (amended: the server-error markers are the literal status texts
500/502/503/504 and four 5xx reason phrases, not the whole 5xx family):
`categorizeError` leaves `Total`/`Successful`/`Failed` untouched and
increments exactly one of the four category counters, chosen by priority
on the lower-cased error text — rate-limit markers first, then the
listed server-error markers, then network markers, then `other`. -/
theorem categorizeError_priority (msg : List Char) (stats : ErrorStats) :
    (categorizeError msg stats).total = stats.total ∧
    (categorizeError msg stats).successful = stats.successful ∧
    (categorizeError msg stats).failed = stats.failed ∧
    (categorizeError msg stats).rateLimit + (categorizeError msg stats).serverError +
        (categorizeError msg stats).network + (categorizeError msg stats).other
      = stats.rateLimit + stats.serverError + stats.network + stats.other + 1 ∧
    (hasRateLimitMarker (goToLower msg) = true →
      categorizeError msg stats = { stats with rateLimit := stats.rateLimit + 1 }) ∧
    (hasRateLimitMarker (goToLower msg) = false →
      hasServerErrorMarker (goToLower msg) = true →
      categorizeError msg stats = { stats with serverError := stats.serverError + 1 }) ∧
    (hasRateLimitMarker (goToLower msg) = false →
      hasServerErrorMarker (goToLower msg) = false →
      hasNetworkMarker (goToLower msg) = true →
      categorizeError msg stats = { stats with network := stats.network + 1 }) ∧
    (hasRateLimitMarker (goToLower msg) = false →
      hasServerErrorMarker (goToLower msg) = false →
      hasNetworkMarker (goToLower msg) = false →
      categorizeError msg stats = { stats with other := stats.other + 1 }) := by
  have hcase := categorizeError_cases msg stats
  refine ⟨?_, ?_, ?_, ?_, ?_, ?_, ?_, ?_⟩
  · rcases hcase with h | h | h | h <;> simp [h]
  · rcases hcase with h | h | h | h <;> simp [h]
  · rcases hcase with h | h | h | h <;> simp [h]
  · rcases hcase with h | h | h | h <;> simp [h] <;> omega
  · intro h1
    simp [categorizeError, h1]
  · intro h1 h2
    simp [categorizeError, h1, h2]
  · intro h1 h2 h3
    simp [categorizeError, h1, h2, h3]
  · intro h1 h2 h3
    simp [categorizeError, h1, h2, h3]

/-- Witness for C5: the text "connection refused" matches no rate-limit
or server-error marker but does match a network marker, so exactly the
network counter is bumped. -/
theorem categorizeError_priority_witness :
    categorizeError "connection refused".data ErrorStats.zero = ⟨0, 0, 0, 0, 0, 1, 0⟩ := by
  have h := (categorizeError_priority "connection refused".data ErrorStats.zero).2.2.2.2.2.2.1
    (by decide) (by decide) (by decide)
  simpa [ErrorStats.zero] using h

/-- Counterexample for C5 as stated: the retry layer's error text for
HTTP status 501 — a 5xx-family status containing no rate-limit marker —
is counted in `other`, not in `serverError`, because the classifier only
looks for the literals 500/502/503/504 and four reason phrases. -/
theorem categorizeError_501_counterexample :
    (categorizeError "request failed with status 501 after 3 retries".data
        ErrorStats.zero).serverError = 0 ∧
    (categorizeError "request failed with status 501 after 3 retries".data
        ErrorStats.zero).other = 1 := by
  decide

/-- The bookkeeping invariant of `ErrorStats`: processed records split
into successes and failures, and failures split into the four categories. -/
def statsInv (s : ErrorStats) : Prop :=
  s.total = s.successful + s.failed ∧
  s.failed = s.rateLimit + s.serverError + s.network + s.other

theorem findLoop_statsInv (check : Album → LookupResult) (ign : List (List Char)) :
    ∀ (albums : List Album) (missing : List Album) (stats : ErrorStats),
      statsInv stats → statsInv (findLoop check ign albums missing stats).2 := by
  intro albums
  induction albums with
  | nil => intro missing stats h; exact h
  | cons album rest ih =>
    intro missing stats h
    simp only [findLoop]
    by_cases hig : isURLIgnored album.url ign = true
    · rw [if_pos hig]
      exact ih missing stats h
    · rw [if_neg hig]
      cases hchk : check album with
      | err msg =>
        apply ih
        rcases categorizeError_cases msg
          { stats with total := stats.total + 1, failed := stats.failed + 1 } with
          hc | hc | hc | hc <;>
          · rw [hc]
            obtain ⟨h1, h2⟩ := h
            exact ⟨by simpa using by omega, by simpa using by omega⟩
      | ok found =>
        by_cases hf : found = true
        · rw [hf]
          simp only [if_true]
          apply ih
          obtain ⟨h1, h2⟩ := h
          exact ⟨by simpa using by omega, by simpa using by omega⟩
        · rw [Bool.not_eq_true] at hf
          rw [hf]
          simp only [Bool.false_eq_true, if_false]
          by_cases hlen : maxRecommendations ≤ (missing ++ [album]).length
          · rw [if_pos hlen]
            obtain ⟨h1, h2⟩ := h
            exact ⟨by simpa using by omega, by simpa using by omega⟩
          · rw [if_neg hlen]
            apply ih
            obtain ⟨h1, h2⟩ := h
            exact ⟨by simpa using by omega, by simpa using by omega⟩

/-- C10: the `ErrorStats` invariant — `Total = Successful + Failed` and
`Failed` equals the sum of the four category counters — is preserved by
every step of the scan and holds for the stats `findMissingAlbums`
reports; on one non-ignored record the scan bumps `Total` and exactly
one of `Successful`/`Failed`, and a failing record additionally bumps
exactly one category counter. -/
theorem errorStats_invariant (check : Album → LookupResult) (ign : List (List Char)) :
    (∀ (albums missing : List Album) (stats : ErrorStats),
        statsInv stats → statsInv (findLoop check ign albums missing stats).2) ∧
    (∀ albums : List Album, statsInv (findMissingAlbums check ign albums).2) ∧
    (∀ (album : Album) (missing : List Album) (stats : ErrorStats),
        isURLIgnored album.url ign = false →
        (∀ msg, check album = .err msg →
          (findLoop check ign [album] missing stats).1 = missing ∧
          ((findLoop check ign [album] missing stats).2
              = { stats with
                  total := stats.total + 1
                  failed := stats.failed + 1
                  rateLimit := stats.rateLimit + 1 } ∨
            (findLoop check ign [album] missing stats).2
              = { stats with
                  total := stats.total + 1
                  failed := stats.failed + 1
                  serverError := stats.serverError + 1 } ∨
            (findLoop check ign [album] missing stats).2
              = { stats with
                  total := stats.total + 1
                  failed := stats.failed + 1
                  network := stats.network + 1 } ∨
            (findLoop check ign [album] missing stats).2
              = { stats with
                  total := stats.total + 1
                  failed := stats.failed + 1
                  other := stats.other + 1 })) ∧
        (∀ found, check album = .ok found →
          (findLoop check ign [album] missing stats).2
            = { stats with
                total := stats.total + 1
                successful := stats.successful + 1 })) := by
  refine ⟨findLoop_statsInv check ign, ?_, ?_⟩
  · intro albums
    exact findLoop_statsInv check ign albums [] ErrorStats.zero ⟨rfl, rfl⟩
  · intro album missing stats hig
    constructor
    · intro msg hchk
      simp only [findLoop, hig, Bool.false_eq_true, if_false, hchk]
      constructor
      · trivial
      · rcases categorizeError_cases msg
          { stats with total := stats.total + 1, failed := stats.failed + 1 } with
          hc | hc | hc | hc <;> rw [hc] <;> simp
    · intro found hchk
      simp only [findLoop, hig, Bool.false_eq_true, if_false, hchk]
      by_cases hf : found = true
      · rw [hf]
        simp [findLoop]
      · rw [Bool.not_eq_true] at hf
        rw [hf]
        simp only [Bool.false_eq_true, if_false]
        by_cases hlen : maxRecommendations ≤ (missing ++ [album]).length
        · rw [if_pos hlen]
        · rw [if_neg hlen]


/-- Witness for C10: one failing record with a network-marker error text
starting from zero stats. -/
theorem errorStats_invariant_witness :
    (findLoop (fun _ => .err "connection refused".data) [] [⟨['a'], ['b'], ['u']⟩] []
        ErrorStats.zero).2 = ⟨1, 0, 1, 0, 0, 1, 0⟩ := by
  have h := ((errorStats_invariant (fun _ => .err "connection refused".data) []).2.2
    ⟨['a'], ['b'], ['u']⟩ [] ErrorStats.zero (by decide)).1 "connection refused".data rfl
  rcases h.2 with hc | hc | hc | hc
  · exact absurd hc (by decide)
  · exact absurd hc (by decide)
  · rw [hc]
    decide
  · exact absurd hc (by decide)

theorem findLoop_missing_extend (check : Album → LookupResult) (ign : List (List Char)) :
    ∀ (albums missing : List Album) (stats : ErrorStats),
      ∃ t, (findLoop check ign albums missing stats).1 = missing ++ t ∧
        List.Sublist t albums := by
  intro albums
  induction albums with
  | nil => intro missing stats; exact ⟨[], by simp [findLoop], List.Sublist.slnil⟩
  | cons album rest ih =>
    intro missing stats
    simp only [findLoop]
    by_cases hig : isURLIgnored album.url ign = true
    · rw [if_pos hig]
      obtain ⟨t, ht, hs⟩ := ih missing stats
      exact ⟨t, ht, List.Sublist.cons album hs⟩
    · rw [if_neg hig]
      cases hchk : check album with
      | err msg =>
        obtain ⟨t, ht, hs⟩ := ih missing _
        exact ⟨t, ht, List.Sublist.cons album hs⟩
      | ok found =>
        by_cases hf : found = true
        · rw [hf]
          simp only [if_true]
          obtain ⟨t, ht, hs⟩ := ih missing _
          exact ⟨t, ht, List.Sublist.cons album hs⟩
        · rw [Bool.not_eq_true] at hf
          rw [hf]
          simp only [Bool.false_eq_true, if_false]
          by_cases hlen : maxRecommendations ≤ (missing ++ [album]).length
          · rw [if_pos hlen]
            exact ⟨[album], rfl, List.Sublist.cons₂ album (List.nil_sublist rest)⟩
          · rw [if_neg hlen]
            obtain ⟨t, ht, hs⟩ := ih (missing ++ [album]) _
            refine ⟨album :: t, ?_, List.Sublist.cons₂ album hs⟩
            rw [ht, List.append_assoc]
            rfl

theorem findLoop_length_le (check : Album → LookupResult) (ign : List (List Char)) :
    ∀ (albums missing : List Album) (stats : ErrorStats),
      missing.length < maxRecommendations →
      (findLoop check ign albums missing stats).1.length ≤ maxRecommendations := by
  intro albums
  induction albums with
  | nil =>
    intro missing stats h
    simpa [findLoop] using Nat.le_of_lt h
  | cons album rest ih =>
    intro missing stats h
    simp only [findLoop]
    by_cases hig : isURLIgnored album.url ign = true
    · rw [if_pos hig]
      exact ih missing stats h
    · rw [if_neg hig]
      cases hchk : check album with
      | err msg => exact ih missing _ h
      | ok found =>
        by_cases hf : found = true
        · rw [hf]
          simp only [if_true]
          exact ih missing _ h
        · rw [Bool.not_eq_true] at hf
          rw [hf]
          simp only [Bool.false_eq_true, if_false]
          by_cases hlen : maxRecommendations ≤ (missing ++ [album]).length
          · rw [if_pos hlen]
            simp only [List.length_append, List.length_cons, List.length_nil]
            omega
          · rw [if_neg hlen]
            apply ih
            simp only [List.length_append, List.length_cons, List.length_nil] at hlen ⊢
            omega

/-- C1: on a history of length `K`, `findMissingAlbums` returns an
order-preserving subsequence of the input (`List.Sublist`) of length at
most `min K maxRecommendations`. -/
theorem findMissingAlbums_capped_subseq (check : Album → LookupResult)
    (ign : List (List Char)) (albums : List Album) :
    List.Sublist (findMissingAlbums check ign albums).1 albums ∧
    (findMissingAlbums check ign albums).1.length
      ≤ min albums.length maxRecommendations := by
  obtain ⟨t, ht, hs⟩ := findLoop_missing_extend check ign albums [] ErrorStats.zero
  have hres : (findMissingAlbums check ign albums).1 = t := by
    simpa [findMissingAlbums] using ht
  constructor
  · rw [hres]
    exact hs
  · have h1 : (findMissingAlbums check ign albums).1.length ≤ albums.length := by
      rw [hres]
      exact hs.length_le
    have h2 := findLoop_length_le check ign albums [] ErrorStats.zero
      (by simp [maxRecommendations])
    simp only [findMissingAlbums] at h1 h2 ⊢
    omega

theorem findLoop_skip_ignored (check : Album → LookupResult) (ign : List (List Char))
    (album : Album) (h : isURLIgnored album.url ign = true) :
    ∀ (pre post missing : List Album) (stats : ErrorStats),
      findLoop check ign (pre ++ album :: post) missing stats
        = findLoop check ign (pre ++ post) missing stats := by
  intro pre
  induction pre with
  | nil =>
    intro post missing stats
    simp only [List.nil_append, findLoop, h, if_true]
  | cons x pre ih =>
    intro post missing stats
    simp only [List.cons_append, findLoop]
    by_cases hig : isURLIgnored x.url ign = true
    · rw [if_pos hig, if_pos hig]
      exact ih post missing stats
    · rw [if_neg hig, if_neg hig]
      cases hchk : check x with
      | err msg =>
        simp only
        exact ih post missing _
      | ok found =>
        simp only
        by_cases hf : found = true
        · rw [hf]
          simp only [if_true]
          exact ih post missing _
        · rw [Bool.not_eq_true] at hf
          rw [hf]
          simp only [Bool.false_eq_true, if_false]
          by_cases hlen : maxRecommendations ≤ (missing ++ [x]).length
          · rw [if_pos hlen, if_pos hlen]
          · rw [if_neg hlen, if_neg hlen]
            exact ih post (missing ++ [x]) _

theorem findLoop_mem_result (check : Album → LookupResult) (ign : List (List Char)) :
    ∀ (albums missing : List Album) (stats : ErrorStats) (b : Album),
      b ∈ (findLoop check ign albums missing stats).1 →
      b ∈ missing ∨ (b ∈ albums ∧ isURLIgnored b.url ign = false) := by
  intro albums
  induction albums with
  | nil =>
    intro missing stats b hb
    left
    simpa [findLoop] using hb
  | cons album rest ih =>
    intro missing stats b hb
    simp only [findLoop] at hb
    by_cases hig : isURLIgnored album.url ign = true
    · rw [if_pos hig] at hb
      rcases ih missing stats b hb with hm | ⟨hr, hu⟩
      · exact Or.inl hm
      · exact Or.inr ⟨List.mem_cons_of_mem album hr, hu⟩
    · rw [if_neg hig] at hb
      have higf : isURLIgnored album.url ign = false := Bool.not_eq_true _ |>.mp hig
      cases hchk : check album with
      | err msg =>
        rw [hchk] at hb
        rcases ih missing _ b hb with hm | ⟨hr, hu⟩
        · exact Or.inl hm
        · exact Or.inr ⟨List.mem_cons_of_mem album hr, hu⟩
      | ok found =>
        rw [hchk] at hb
        by_cases hf : found = true
        · rw [hf] at hb
          simp only [if_true] at hb
          rcases ih missing _ b hb with hm | ⟨hr, hu⟩
          · exact Or.inl hm
          · exact Or.inr ⟨List.mem_cons_of_mem album hr, hu⟩
        · rw [Bool.not_eq_true] at hf
          rw [hf] at hb
          simp only [Bool.false_eq_true, if_false] at hb
          by_cases hlen : maxRecommendations ≤ (missing ++ [album]).length
          · rw [if_pos hlen] at hb
            rcases List.mem_append.mp hb with hm | hsing
            · exact Or.inl hm
            · have : b = album := by simpa using hsing
              subst this
              exact Or.inr ⟨List.mem_cons_self b rest, higf⟩
          · rw [if_neg hlen] at hb
            rcases ih (missing ++ [album]) _ b hb with hm | ⟨hr, hu⟩
            · rcases List.mem_append.mp hm with hm2 | hsing
              · exact Or.inl hm2
              · have : b = album := by simpa using hsing
                subst this
                exact Or.inr ⟨List.mem_cons_self b rest, higf⟩
            · exact Or.inr ⟨List.mem_cons_of_mem album hr, hu⟩

/-- C8: a record whose URL is in the ignore set is transparent to the
scan — removing it from the input changes neither the result list nor
any `ErrorStats` counter, for every possible library-lookup behaviour
(so no lookup for it can influence the run) — and no record of the
result has its URL in the ignore set. -/
theorem findMissingAlbums_ignored_frame (check : Album → LookupResult)
    (ign : List (List Char)) (album : Album)
    (h : isURLIgnored album.url ign = true) :
    (∀ pre post : List Album,
        findMissingAlbums check ign (pre ++ album :: post)
          = findMissingAlbums check ign (pre ++ post)) ∧
    (∀ (albums : List Album) (b : Album),
        b ∈ (findMissingAlbums check ign albums).1 →
        isURLIgnored b.url ign = false) := by
  constructor
  · intro pre post
    simp only [findMissingAlbums]
    exact findLoop_skip_ignored check ign album h pre post [] ErrorStats.zero
  · intro albums b hb
    rcases findLoop_mem_result check ign albums [] ErrorStats.zero b hb with hm | ⟨_, hu⟩
    · simp at hm
    · exact hu

/-- Witness for C8: a concrete two-record history whose first record's
URL is ignored behaves exactly like the one-record history without it. -/
theorem findMissingAlbums_ignored_frame_witness :
    findMissingAlbums (fun _ => .ok false) [['u']]
        ([] ++ (⟨['a'], ['b'], ['u']⟩ : Album) :: [⟨['c'], ['d'], ['v']⟩])
      = findMissingAlbums (fun _ => .ok false) [['u']] ([] ++ [⟨['c'], ['d'], ['v']⟩]) :=
  (findMissingAlbums_ignored_frame (fun _ => .ok false) [['u']]
    ⟨['a'], ['b'], ['u']⟩ (by decide)).1 [] [⟨['c'], ['d'], ['v']⟩]

/-- C3: a failed initial history fetch aborts the run (the model returns
its error), a successful fetch always yields a normal result, and a
failing per-record lookup never aborts the scan: it adds the record's
error to the failure counters and continues with the remaining records,
leaving the result accumulator untouched. -/
theorem run_fatal_only_initial (check : Album → LookupResult) (ign : List (List Char)) :
    (∀ e, runMain check ign (.error e) = .error e) ∧
    (∀ albums, runMain check ign (.ok albums)
        = .ok (findMissingAlbums check ign albums)) ∧
    (∀ (album : Album) (rest missing : List Album) (stats : ErrorStats) (msg : List Char),
        isURLIgnored album.url ign = false → check album = .err msg →
        findLoop check ign (album :: rest) missing stats
          = findLoop check ign rest missing
              (categorizeError msg
                { stats with total := stats.total + 1, failed := stats.failed + 1 })) := by
  refine ⟨fun e => rfl, fun albums => rfl, ?_⟩
  intro album rest missing stats msg hig hchk
  simp only [findLoop, hig, Bool.false_eq_true, if_false, hchk]

/-- Witness for C3: one record whose lookup fails with "boom" is
absorbed — the scan continues on the empty remainder with bumped
failure counters. -/
theorem run_fatal_only_initial_witness :
    findLoop (fun _ => .err "boom".data) [] [⟨['a'], ['b'], ['u']⟩] [] ErrorStats.zero
      = findLoop (fun _ => .err "boom".data) [] [] []
          (categorizeError "boom".data ⟨1, 0, 1, 0, 0, 0, 0⟩) := by
  have h := (run_fatal_only_initial (fun _ => .err "boom".data) []).2.2
    ⟨['a'], ['b'], ['u']⟩ [] [] ErrorStats.zero "boom".data (by decide) rfl
  simpa [ErrorStats.zero] using h

/-- Is the first character one satisfying `p`? -/
def firstCharP (p : Char → Bool) : List Char → Bool
  | [] => false
  | c :: _ => p c

/-- Is the last character one satisfying `p`? -/
def lastCharP (p : Char → Bool) (l : List Char) : Bool :=
  match l.getLast? with
  | some c => p c
  | none => false

/-- No two adjacent spaces anywhere in the list. -/
def noDoubleSpace : List Char → Bool
  | [] => true
  | [_] => true
  | a :: b :: rest => !(a == ' ' && b == ' ') && noDoubleSpace (b :: rest)

theorem keepChar_regex_eq_go (c : Char) (h : keepChar c = true) :
    isRegexSpace c = isGoSpace c := by
  simp only [keepChar, Bool.or_eq_true, beq_iff_eq] at h
  rcases h with (h | h) | h
  · simp only [isAsciiDigit, decide_eq_true_eq] at h
    simp only [isRegexSpace, isGoSpace]
    rw [decide_eq_decide]
    omega
  · simp only [isUnicodeLetter, decide_eq_true_eq] at h
    simp only [isRegexSpace, isGoSpace]
    rw [decide_eq_decide]
    omega
  · subst h
    decide

theorem keep_regexSpace_space (c : Char) (h : keepChar c = true)
    (hs : isRegexSpace c = true) : c = ' ' := by
  simp only [keepChar, Bool.or_eq_true, beq_iff_eq] at h
  simp only [isRegexSpace, decide_eq_true_eq] at hs
  rcases h with (h | h) | h
  · simp only [isAsciiDigit, decide_eq_true_eq] at h
    exfalso
    omega
  · simp only [isUnicodeLetter, decide_eq_true_eq] at h
    exfalso
    omega
  · exact h

theorem collapseAux_mem (p : Char → Bool) :
    ∀ (l : List Char) (b : Bool) (c : Char),
      c ∈ collapseAux p b l → c = ' ' ∨ c ∈ l := by
  intro l
  induction l with
  | nil => intro b c hc; simp [collapseAux] at hc
  | cons d rest ih =>
    intro b c hc
    simp only [collapseAux] at hc
    by_cases hp : p d = true
    · rw [if_pos hp] at hc
      cases b with
      | false =>
        simp only [Bool.false_eq_true, if_false] at hc
        rcases List.mem_cons.mp hc with h | h
        · exact Or.inl h
        · rcases ih true c h with h2 | h2
          · exact Or.inl h2
          · exact Or.inr (List.mem_cons_of_mem d h2)
      | true =>
        simp only [if_true] at hc
        rcases ih true c hc with h2 | h2
        · exact Or.inl h2
        · exact Or.inr (List.mem_cons_of_mem d h2)
    · rw [if_neg hp] at hc
      rcases List.mem_cons.mp hc with h | h
      · subst h
        exact Or.inr (List.mem_cons_self c rest)
      · rcases ih false c h with h2 | h2
        · exact Or.inl h2
        · exact Or.inr (List.mem_cons_of_mem d h2)

theorem collapseAux_noDouble (p : Char → Bool) (hp : p ' ' = true) :
    ∀ (l : List Char) (b : Bool),
      noDoubleSpace (collapseAux p b l) = true ∧
      (b = true → firstCharP (fun c => c == ' ') (collapseAux p b l) = false) := by
  intro l
  induction l with
  | nil => intro b; exact ⟨rfl, fun _ => rfl⟩
  | cons d rest ih =>
    intro b
    by_cases hd : p d = true
    · cases b with
      | false =>
        constructor
        · have h2 := (ih true).1
          have h3 := (ih true).2 rfl
          simp only [collapseAux, hd, if_true, Bool.false_eq_true, if_false]
          cases hX : collapseAux p true rest with
          | nil => simp [noDoubleSpace]
          | cons e t =>
            rw [hX] at h2 h3
            simp only [firstCharP] at h3
            simp [noDoubleSpace, h3, h2]
        · intro hb
          simp at hb
      | true =>
        constructor
        · have h2 := (ih true).1
          simpa [collapseAux, hd] using h2
        · intro _
          have h3 := (ih true).2 rfl
          simpa [collapseAux, hd] using h3
    · have hdne : (d == ' ') = false := by
        cases hdeq : d == ' ' with
        | false => rfl
        | true =>
          have hde : d = ' ' := by simpa using hdeq
          rw [hde] at hd
          exact absurd hp hd
      have hdom : collapseAux p b (d :: rest) = d :: collapseAux p false rest := by
        cases b <;> simp [collapseAux, hd]
      constructor
      · rw [hdom]
        have h1 := (ih false).1
        cases hX : collapseAux p false rest with
        | nil => simp [noDoubleSpace]
        | cons e t =>
          rw [hX] at h1
          simp [noDoubleSpace, hdne, h1]
      · intro _
        rw [hdom]
        simpa [firstCharP] using hdne

theorem noDoubleSpace_tail (a : Char) (l : List Char)
    (h : noDoubleSpace (a :: l) = true) : noDoubleSpace l = true := by
  cases l with
  | nil => rfl
  | cons b t =>
    simp only [noDoubleSpace, Bool.and_eq_true] at h
    exact h.2

theorem collapseAux_eq_self (p : Char → Bool) (hp : p ' ' = true) :
    ∀ l : List Char, (∀ c ∈ l, p c = true → c = ' ') → noDoubleSpace l = true →
      collapseAux p false l = l ∧
      (firstCharP (fun c => c == ' ') l = false → collapseAux p true l = l) := by
  intro l
  induction l with
  | nil => intro _ _; exact ⟨rfl, fun _ => rfl⟩
  | cons d rest ih =>
    intro hall hnd
    have hrest := ih (fun c hc hpc => hall c (List.mem_cons_of_mem d hc) hpc)
      (noDoubleSpace_tail d rest hnd)
    by_cases hd : p d = true
    · have hdsp : d = ' ' := hall d (List.mem_cons_self d rest) hd
      subst hdsp
      constructor
      · simp only [collapseAux, hp, if_true, Bool.false_eq_true, if_false]
        congr 1
        apply hrest.2
        cases rest with
        | nil => rfl
        | cons e t =>
          simp only [noDoubleSpace, Bool.and_eq_true] at hnd
          have h1 := hnd.1
          simp only [firstCharP]
          simpa using h1
      · intro hfst
        simp [firstCharP] at hfst
    · constructor
      · simp only [collapseAux, hd, Bool.false_eq_true, if_false]
        rw [hrest.1]
      · intro _
        simp only [collapseAux, hd, Bool.false_eq_true, if_false]
        rw [hrest.1]

theorem collapseAux_congr (p q : Char → Bool) :
    ∀ (l : List Char) (b : Bool), (∀ c ∈ l, p c = q c) →
      collapseAux p b l = collapseAux q b l := by
  intro l
  induction l with
  | nil => intro b _; rfl
  | cons d rest ih =>
    intro b h
    have hd : p d = q d := h d (List.mem_cons_self d rest)
    have hr : ∀ b2, collapseAux p b2 rest = collapseAux q b2 rest :=
      fun b2 => ih b2 (fun c hc => h c (List.mem_cons_of_mem d hc))
    simp only [collapseAux, hd]
    by_cases hq : q d = true
    · rw [if_pos hq, if_pos hq]
      cases b with
      | false =>
        simp only [Bool.false_eq_true, if_false]
        rw [hr true]
      | true =>
        simp only [if_true]
        rw [hr true]
    · rw [if_neg hq, if_neg hq]
      rw [hr false]

theorem noDoubleSpace_append_left :
    ∀ (t r : List Char), noDoubleSpace (t ++ r) = true → noDoubleSpace t = true := by
  intro t
  induction t with
  | nil => intro r _; rfl
  | cons a t2 ih =>
    intro r h
    cases t2 with
    | nil => rfl
    | cons b t3 =>
      simp only [List.cons_append, noDoubleSpace, Bool.and_eq_true] at h ⊢
      exact ⟨h.1, ih r h.2⟩

theorem noDoubleSpace_dropWhile (p : Char → Bool) :
    ∀ l : List Char, noDoubleSpace l = true → noDoubleSpace (l.dropWhile p) = true := by
  intro l
  induction l with
  | nil => intro h; exact h
  | cons a t ih =>
    intro h
    rw [List.dropWhile_cons]
    by_cases hp : p a = true
    · rw [if_pos hp]
      exact ih (noDoubleSpace_tail a t h)
    · rw [if_neg hp]
      exact h

theorem noDoubleSpace_trimSpace (l : List Char) (h : noDoubleSpace l = true) :
    noDoubleSpace (trimSpace l) = true := by
  have h1 := noDoubleSpace_dropWhile isGoSpace l h
  obtain ⟨r, hr⟩ := List.rdropWhile_prefix isGoSpace (l.dropWhile isGoSpace)
  show noDoubleSpace (List.rdropWhile isGoSpace (l.dropWhile isGoSpace)) = true
  exact noDoubleSpace_append_left _ r (by rw [hr]; exact h1)

theorem firstCharP_dropWhile (p : Char → Bool) :
    ∀ l : List Char, firstCharP p (l.dropWhile p) = false := by
  intro l
  induction l with
  | nil => rfl
  | cons a t ih =>
    rw [List.dropWhile_cons]
    by_cases hp : p a = true
    · rw [if_pos hp]
      exact ih
    · rw [if_neg hp]
      simpa [firstCharP] using hp

theorem firstCharP_trimSpace (l : List Char) :
    firstCharP isGoSpace (trimSpace l) = false := by
  obtain ⟨r, hr⟩ := List.rdropWhile_prefix isGoSpace (l.dropWhile isGoSpace)
  have hm := firstCharP_dropWhile isGoSpace l
  show firstCharP isGoSpace (List.rdropWhile isGoSpace (l.dropWhile isGoSpace)) = false
  cases hX : List.rdropWhile isGoSpace (l.dropWhile isGoSpace) with
  | nil => rfl
  | cons c t =>
    rw [hX] at hr
    rw [← hr] at hm
    simpa [firstCharP] using hm

theorem lastCharP_trimSpace (l : List Char) :
    lastCharP isGoSpace (trimSpace l) = false := by
  by_cases hne : trimSpace l = []
  · rw [hne]
    simp [lastCharP]
  · have hlast := List.rdropWhile_last_not isGoSpace (l.dropWhile isGoSpace) hne
    have hfalse : isGoSpace ((trimSpace l).getLast hne) = false :=
      (Bool.not_eq_true _).mp hlast
    simp only [lastCharP, List.getLast?_eq_getLast (trimSpace l) hne]
    exact hfalse

theorem trimSpace_eq_self (l : List Char)
    (h1 : firstCharP isGoSpace l = false) (h2 : lastCharP isGoSpace l = false) :
    trimSpace l = l := by
  have hd : l.dropWhile isGoSpace = l := by
    cases l with
    | nil => rfl
    | cons a t =>
      simp only [firstCharP] at h1
      rw [List.dropWhile_cons, if_neg (by simp [h1])]
  show List.rdropWhile isGoSpace (l.dropWhile isGoSpace) = l
  rw [hd]
  rw [List.rdropWhile_eq_self_iff]
  intro hl
  simp only [lastCharP, List.getLast?_eq_getLast l hl] at h2
  simp [h2]

theorem trimSpace_sublist (l : List Char) : List.Sublist (trimSpace l) l := by
  have hp := List.rdropWhile_prefix isGoSpace (l.dropWhile isGoSpace)
  exact hp.sublist.trans (List.dropWhile_sublist _)

theorem stripTrailingGroup_eq_self (l : List Char)
    (h : ∀ c ∈ l, keepChar c = true) : stripTrailingGroup l = l := by
  rw [stripTrailingGroup, if_neg]
  intro hlast
  have hmem : (')' : Char) ∈ l := List.mem_of_mem_getLast? hlast
  have := h ')' hmem
  exact absurd this (by decide)

theorem cleanChars_all_keep (l : List Char) :
    ∀ c ∈ cleanChars l, keepChar c = true := by
  intro c hc
  have hc1 : c ∈ collapseWith isRegexSpace
      ((stripTrailingGroup (trimSpace l)).filter keepChar) :=
    (trimSpace_sublist _).subset hc
  rcases collapseAux_mem isRegexSpace _ false c hc1 with h | h
  · rw [h]
    decide
  · exact List.of_mem_filter h

theorem cleanChars_noDouble (l : List Char) : noDoubleSpace (cleanChars l) = true := by
  have h1 : noDoubleSpace (collapseWith isRegexSpace
      ((stripTrailingGroup (trimSpace l)).filter keepChar)) = true :=
    (collapseAux_noDouble isRegexSpace (by decide) _ false).1
  exact noDoubleSpace_trimSpace _ h1

theorem cleanChars_eq_self (l : List Char)
    (hk : ∀ c ∈ l, keepChar c = true)
    (hnd : noDoubleSpace l = true)
    (hf : firstCharP isGoSpace l = false)
    (hl : lastCharP isGoSpace l = false) :
    cleanChars l = l := by
  have ht : trimSpace l = l := trimSpace_eq_self l hf hl
  rw [cleanChars, ht, stripTrailingGroup_eq_self l hk, List.filter_eq_self.mpr hk]
  have hcol : collapseWith isRegexSpace l = l :=
    (collapseAux_eq_self isRegexSpace (by decide) l
      (fun c hc hpc => keep_regexSpace_space c (hk c hc) hpc) hnd).1
  rw [hcol, ht]

theorem cleanChars_idempotent (l : List Char) :
    cleanChars (cleanChars l) = cleanChars l :=
  cleanChars_eq_self (cleanChars l) (cleanChars_all_keep l) (cleanChars_noDouble l)
    (firstCharP_trimSpace _) (lastCharP_trimSpace _)

/-- C6: the normalizer is idempotent — running `cleanString` on an
already-normalized string is a no-op, for every input string. -/
theorem cleanString_idempotent (s : String) :
    cleanString (cleanString s) = cleanString s := by
  show String.mk (cleanChars (String.mk (cleanChars s.data)).data)
    = String.mk (cleanChars s.data)
  exact congrArg String.mk (cleanChars_idempotent s.data)

/-- Modelled from the spec (§4.4): the five-step normalize pipeline as
the spec words it — trim surrounding white space, strip one trailing
parenthesized group at the very end (once, not recursively), delete
every character that is not a Unicode letter, a digit or a space, then
collapse any run of white space to a single space, and trim again.  The
collapse step here uses the full white-space class `isGoSpace`, where
the code's regexp uses the ASCII class `isRegexSpace`. -/
def normalizeSpec (l : List Char) : List Char :=
  trimSpace (collapseWith isGoSpace ((stripTrailingGroup (trimSpace l)).filter keepChar))

/-- C7: `cleanString` implements the spec's five-step pipeline — the two
agree on every input, because after the deletion step only the plain
space character remains of either white-space class — and it maps
"Test Album (Deluxe Edition)" to "Test Album",
"Test  Album   " to "Test Album", and "" to "". -/
theorem cleanString_pipeline :
    (∀ l : List Char, cleanChars l = normalizeSpec l) ∧
    cleanString "Test Album (Deluxe Edition)" = "Test Album" ∧
    cleanString "Test  Album   " = "Test Album" ∧
    cleanString "" = "" := by
  refine ⟨?_, by decide, by decide, by decide⟩
  intro l
  unfold cleanChars normalizeSpec collapseWith
  congr 1
  apply collapseAux_congr
  intro c hc
  exact keepChar_regex_eq_go c (List.of_mem_filter hc)

theorem digitChar_inj (a b : Nat) (ha : a < 10) (hb : b < 10)
    (h : Nat.digitChar a = Nat.digitChar b) : a = b := by
  interval_cases a <;> interval_cases b <;> revert h <;> decide

/-- The field ranges `time.Now()` can actually produce (a `time.Time`
always carries a calendar-valid instant); the year bound matches the
four-digit layout field. -/
def validTime (t : GoTime) : Prop :=
  t.year < 10000 ∧ 1 ≤ t.month ∧ t.month ≤ 12 ∧ 1 ≤ t.day ∧ t.day ≤ 31 ∧
  t.hour < 24 ∧ t.minute < 60 ∧ t.second < 60

theorem pad2_inj (m n : Nat) (hm : m < 100) (hn : n < 100) (h : pad2 m = pad2 n) :
    m = n := by
  simp only [pad2, List.cons.injEq, and_true] at h
  obtain ⟨h1, h2⟩ := h
  have e1 : m / 10 % 10 = n / 10 % 10 := digitChar_inj _ _ (by omega) (by omega) h1
  have e2 : m % 10 = n % 10 := digitChar_inj _ _ (by omega) (by omega) h2
  omega

theorem pad4_inj (m n : Nat) (hm : m < 10000) (hn : n < 10000) (h : pad4 m = pad4 n) :
    m = n := by
  simp only [pad4, List.cons.injEq, and_true] at h
  obtain ⟨h1, h2, h3, h4⟩ := h
  have e1 : m / 1000 % 10 = n / 1000 % 10 := digitChar_inj _ _ (by omega) (by omega) h1
  have e2 : m / 100 % 10 = n / 100 % 10 := digitChar_inj _ _ (by omega) (by omega) h2
  have e3 : m / 10 % 10 = n / 10 % 10 := digitChar_inj _ _ (by omega) (by omega) h3
  have e4 : m % 10 = n % 10 := digitChar_inj _ _ (by omega) (by omega) h4
  omega

theorem formatTimestamp_inj (t1 t2 : GoTime) (h1 : validTime t1) (h2 : validTime t2)
    (h : formatTimestamp t1 = formatTimestamp t2) : t1 = t2 := by
  obtain ⟨hy1, hmo1, hmo1b, hd1, hd1b, hh1, hmi1, hs1⟩ := h1
  obtain ⟨hy2, hmo2, hmo2b, hd2, hd2b, hh2, hmi2, hs2⟩ := h2
  simp only [formatTimestamp, pad4, pad2, List.cons_append, List.nil_append,
    List.cons.injEq, and_true] at h
  obtain ⟨e1, e2, e3, e4, e5, e6, e7, e8, e9, e10, e11, e12, e13, e14⟩ := h
  have y := pad4_inj t1.year t2.year hy1 hy2 (by simp [pad4, e1, e2, e3, e4])
  have mo := pad2_inj t1.month t2.month (by omega) (by omega) (by simp [pad2, e5, e6])
  have d := pad2_inj t1.day t2.day (by omega) (by omega) (by simp [pad2, e7, e8])
  have h' := pad2_inj t1.hour t2.hour (by omega) (by omega) (by simp [pad2, e9, e10])
  have mi := pad2_inj t1.minute t2.minute (by omega) (by omega) (by simp [pad2, e11, e12])
  have s := pad2_inj t1.second t2.second (by omega) (by omega) (by simp [pad2, e13, e14])
  cases t1
  cases t2
  simp only [GoTime.mk.injEq]
  exact ⟨y, mo, d, h', mi, s⟩

/-- Counterexample for C4 as stated: the salt is `time.Now()` formatted
at second resolution, so two distinct calls observed within the same
second generate identical salts — the salt list of such a run is not
duplicate-free. -/
theorem searchAuth_same_second_counterexample :
    ¬ (searchCallSalts (fun x => x) []
        [⟨2025, 3, 1, 10, 20, 30⟩, ⟨2025, 3, 1, 10, 20, 30⟩]).Nodup := by
  decide

/-- C4 (amended): every `SearchAlbum` call regenerates its salt from the
current wall-clock time at second resolution and sends the token
`hex(md5(password ++ salt))` built from that call's own salt; calls in
the same second therefore share a salt, and calls at different valid
times get different salts. -/
theorem searchAuth_salt_spec (md5hex : List Char → List Char) (password : List Char) :
    (∀ t : GoTime, searchAuth md5hex password t
        = (md5hex (password ++ formatTimestamp t), formatTimestamp t)) ∧
    (∀ t1 t2 : GoTime, t1 = t2 →
        (searchAuth md5hex password t1).2 = (searchAuth md5hex password t2).2) ∧
    (∀ t1 t2 : GoTime, validTime t1 → validTime t2 → t1 ≠ t2 →
        (searchAuth md5hex password t1).2 ≠ (searchAuth md5hex password t2).2) := by
  refine ⟨fun t => rfl, fun t1 t2 h => by rw [h], ?_⟩
  intro t1 t2 h1 h2 hne heq
  exact hne (formatTimestamp_inj t1 t2 h1 h2 heq)

/-- Witness for C4's amended theorem: two calls one second apart get
different salts. -/
theorem searchAuth_salt_spec_witness :
    (searchAuth (fun x => x) [] ⟨2025, 3, 1, 10, 20, 30⟩).2
      ≠ (searchAuth (fun x => x) [] ⟨2025, 3, 1, 10, 20, 31⟩).2 :=
  (searchAuth_salt_spec (fun x => x) []).2.2 ⟨2025, 3, 1, 10, 20, 30⟩
    ⟨2025, 3, 1, 10, 20, 31⟩ (by unfold validTime; decide)
    (by unfold validTime; decide) (by decide)

/-- The error text a lookup yields once the run's deadline has fired:
`DoWithRetry` returns `ctx.Err()` and `SearchAlbum` wraps it. -/
def cancelErrMsg : List Char := "Subsonic API request failed: context deadline exceeded".data

theorem categorizeError_other_of_no_marker (msg : List Char) (s : ErrorStats)
    (h1 : hasRateLimitMarker (goToLower msg) = false)
    (h2 : hasServerErrorMarker (goToLower msg) = false)
    (h3 : hasNetworkMarker (goToLower msg) = false) :
    categorizeError msg s = { s with other := s.other + 1 } := by
  simp [categorizeError, h1, h2, h3]

theorem findLoop_all_err (msg : List Char)
    (h1 : hasRateLimitMarker (goToLower msg) = false)
    (h2 : hasServerErrorMarker (goToLower msg) = false)
    (h3 : hasNetworkMarker (goToLower msg) = false) :
    ∀ (albums : List Album) (stats : ErrorStats),
      findLoop (fun _ => .err msg) [] albums [] stats
        = ([], { stats with
                 total := stats.total + albums.length
                 failed := stats.failed + albums.length
                 other := stats.other + albums.length }) := by
  intro albums
  induction albums with
  | nil => intro stats; simp [findLoop]
  | cons a rest ih =>
    intro stats
    have hig : isURLIgnored a.url [] = false := rfl
    simp only [findLoop, hig, Bool.false_eq_true, if_false]
    rw [categorizeError_other_of_no_marker msg _ h1 h2 h3]
    rw [ih]
    cases stats
    simp only [List.length_cons, ErrorStats.mk.injEq, Prod.mk.injEq, true_and]
    omega

/-- C2 (amended): once the deadline token fires, a `DoWithRetry` call in
its retry wait aborts immediately with the cancellation result — but
`findMissingAlbums` treats the resulting per-record errors as ordinary
failures: with every lookup failing with the cancellation text it still
visits and counts every record and completes normally with the partial
result, surfacing no run-level cancellation error. -/
theorem cancellation_not_fatal (albums : List Album) :
    (∀ (attempt : Nat → AttemptOutcome) (N : Nat), 2 ≤ N →
        isSuccessOutcome (attempt 0) = false →
        DoWithRetry N attempt (fun _ => true) = .cancelled) ∧
    findMissingAlbums (fun _ => .err cancelErrMsg) [] albums
      = ([], ⟨albums.length, 0, albums.length, 0, 0, 0, albums.length⟩) := by
  constructor
  · intro attempt N hN hfail
    obtain ⟨k, rfl⟩ : ∃ k, N = k + 2 := ⟨N - 2, by omega⟩
    simp [DoWithRetry, retrySteps, hfail]
  · rw [findMissingAlbums, findLoop_all_err cancelErrMsg (by decide) (by decide) (by decide)]
    simp [ErrorStats.zero]

/-- Witness for C2's amended theorem: a 3-attempt budget with the token
already fired cancels, and a two-record scan with cancelled lookups
completes normally counting both records as failed. -/
theorem cancellation_not_fatal_witness :
    DoWithRetry 3 (fun _ => .transportErr "context deadline exceeded".data)
        (fun _ => true) = .cancelled ∧
    findMissingAlbums (fun _ => .err cancelErrMsg) []
        [⟨['a'], ['x'], ['u']⟩, ⟨['b'], ['y'], ['v']⟩]
      = ([], ⟨2, 0, 2, 0, 0, 0, 2⟩) :=
  ⟨(cancellation_not_fatal []).1 _ 3 (by omega) rfl,
   (cancellation_not_fatal [⟨['a'], ['x'], ['u']⟩, ⟨['b'], ['y'], ['v']⟩]).2⟩

/-- Counterexample for C2 as stated: after the first record's lookup
fails with the cancellation error, the engine still performs the second
record's lookup (which succeeds: `Successful = 1`) and the run completes
normally with a truncated result instead of a cancellation error. -/
theorem scan_after_cancel_counterexample :
    runMain (fun a => if a.name = ['a'] then .err cancelErrMsg else .ok true) []
        (.ok [⟨['a'], ['x'], ['u']⟩, ⟨['b'], ['y'], ['v']⟩])
      = .ok ([], ⟨2, 1, 1, 0, 0, 0, 1⟩) := by
  show Except.ok (findMissingAlbums _ _ _) = _
  rw [Except.ok.injEq]
  decide

end AlbumCheck
